import Mathlib

/-!
Verification of the report-normalisation core of the invoice checker
front end.  The code under study is `analyzeInvoiceUrl` in
`src/frontend/src/hooks/useInvoiceAnalysis.ts`: the dispatch between the
structured payload and the log-text payload, the line-oriented log
parser, and the aggregation into a `ValidationResult`
(types from `src/frontend/src/types/invoice.ts`).

JavaScript strings are modelled as lists of characters (`Str`); the
JS string operations used by the code (`trim`, `startsWith`, `split`,
`replace`, `join`) are defined below with their JS semantics.
-/

namespace InvoiceChecker

/-- A JS string, modelled as its sequence of characters. -/
abbrev Str := List Char

/-- Character list of a Lean string literal. -/
def str (s : String) : Str := s.data

/-- JS whitespace (the characters stripped by `String.prototype.trim`),
restricted to the characters that can occur here. -/
def isJsWs (c : Char) : Bool :=
  c = ' ' || c = '\t' || c = '\n' || c = '\r' || c = '\x0b' || c = '\x0c' || c = '\u00A0'

/-- JS `s.startsWith(p)`: `p` is a leading pattern of `s`. -/
def startsW : Str → Str → Bool
  | [], _ => true
  | _ :: _, [] => false
  | p :: ps, c :: cs => if p = c then startsW ps cs else false

/-- JS `String.prototype.trim`: strip trailing, then leading, whitespace. -/
def trimChars (s : Str) : Str :=
  ((s.reverse.dropWhile isJsWs).reverse).dropWhile isJsWs

/-- Split at the first occurrence of `sep` in `s`: `some (before, after)`
when `sep` occurs, `none` otherwise.  The primitive behind JS `split`
and `replace`. -/
def breakFirst (sep : Str) : Str → Option (Str × Str)
  | [] => if startsW sep [] then some ([], []) else none
  | c :: cs =>
    if startsW sep (c :: cs) then some ([], (c :: cs).drop sep.length)
    else
      match breakFirst sep cs with
      | some (a, b) => some (c :: a, b)
      | none => none

/-- JS `String.prototype.replace` with a string pattern: replace the
first occurrence of `pat` by `rep`; identity when `pat` does not occur. -/
def replaceFirst (pat rep s : Str) : Str :=
  match breakFirst pat s with
  | some (a, b) => a ++ rep ++ b
  | none => s

/-- Fuelled worker for `splitSep`; the fuel bounds the number of cuts. -/
def splitSepAux (sep : Str) : Nat → Str → List Str
  | 0, s => [s]
  | n + 1, s =>
    match breakFirst sep s with
    | none => [s]
    | some (a, b) => a :: splitSepAux sep n b

/-- JS `String.prototype.split` with a non-empty string separator:
repeatedly cut at the leftmost occurrence. -/
def splitSep (sep s : Str) : List Str := splitSepAux sep s.length s

/-- JS `Array.prototype.join` with separator `sep`. -/
def joinSep (sep : Str) : List Str → Str
  | [] => []
  | [x] => x
  | x :: xs => x ++ sep ++ joinSep sep xs

/-- JS `logs.split("\n")`: cut into lines at every line feed. -/
def splitLines : Str → List Str
  | [] => [[]]
  | c :: cs =>
    if c = '\n' then [] :: splitLines cs
    else
      match splitLines cs with
      | [] => [[c]]
      | l :: ls => (c :: l) :: ls

/-- Type `CheckStatus` from `types/invoice.ts`. -/
inductive CheckStatus
  | present
  | missing
  | unclear
  deriving DecidableEq

/-- Type `OverallStatus` from `types/invoice.ts`. -/
inductive OverallStatus
  | approved
  | missing_information
  | invalid
  deriving DecidableEq

/-- Type `InvoiceType` from `types/invoice.ts`. -/
inductive InvoiceType
  | paypal
  | bank_transfer
  deriving DecidableEq

/-- Type `CheckResult` from `types/invoice.ts`. -/
structure CheckResult where
  requirement : Str
  status : CheckStatus
  found_value : Option Str
  comment : Str
  deriving DecidableEq

/-- Type `LayoutSuggestion` from `types/invoice.ts` (`sectionLabel` stands for
the TS field `section`, a reserved word here). -/
structure LayoutSuggestion where
  sectionLabel : Str
  issue : Str
  suggestion : Str
  deriving DecidableEq

/-- Type `ExtractedInvoiceData` from `types/invoice.ts`. -/
structure ExtractedInvoiceData where
  sender_name : Option Str
  sender_address : Option Str
  sender_email : Option Str
  sender_phone : Option Str
  invoice_number : Option Str
  invoice_date : Option Str
  due_date : Option Str
  recipient_email : Option Str
  recipient_company : Option Str
  recipient_address : Option Str
  service_description : Option Str
  quantity : Option Str
  unit_price : Option Str
  total_amount : Option Str
  currency : Option Str
  creator_name : Option Str
  artist_name : Option Str
  birth_date : Option Str
  tax_number : Option Str
  tax_country : Option Str
  vat_status : Option Str
  bank_name : Option Str
  iban : Option Str
  swift_bic : Option Str
  account_holder : Option Str
  deriving DecidableEq

/-- Type `ValidationResult` from `types/invoice.ts`. -/
structure ValidationResult where
  overall_status : OverallStatus
  invoice_type : InvoiceType
  checks : List CheckResult
  missing_items : List Str
  warnings : List Str
  layout_suggestions : List LayoutSuggestion
  summary : Str
  extracted_data : Option ExtractedInvoiceData
  deriving DecidableEq

/-- The `{status, logs, summary}` shape returned by `/api/analyze-invoice`
(`summary` may be absent). -/
structure LogPayload where
  status : Str
  logs : Str
  summary : Option Str
  deriving DecidableEq

/-- The two shapes the response `data` can take, decided in the source by
probing `data.status !== undefined && data.logs !== undefined`. -/
inductive AnalyzeResponse
  | structured (v : ValidationResult)
  | log (p : LogPayload)
  deriving DecidableEq

/-- Parser state of the `for (const line of lines)` loop:
`currentSection` (a string in the source: `""`, `"errors"` or
`"approved"`) plus the three accumulator arrays. -/
structure ParseSt where
  currentSection : Str
  checks : List CheckResult
  missingItems : List Str
  warnings : List Str
  deriving DecidableEq

/-- One iteration of the loop body (`useInvoiceAnalysis.ts` lines
95-116): trim the line, then test the patterns in source order. -/
def stepLine (st : ParseSt) (line : Str) : ParseSt :=
  let trimmed := trimChars line
  if startsW (str "Errors (") trimmed then
    { st with currentSection := str "errors" }
  else if startsW (str "Approved (") trimmed then
    { st with currentSection := str "approved" }
  else if startsW (str "- MISSING:") trimmed then
    let requirement := trimChars (replaceFirst (str "- MISSING:") [] trimmed)
    { st with
      checks := st.checks ++
        [{ requirement := requirement, status := .missing, found_value := none, comment := [] }]
      missingItems := st.missingItems ++ [requirement] }
  else if startsW (str "- ERROR:") trimmed then
    let requirement :=
      (splitSep (str " (found:") (trimChars (replaceFirst (str "- ERROR:") [] trimmed))).headD []
    { st with
      checks := st.checks ++
        [{ requirement := requirement, status := .unclear, found_value := none, comment := [] }] }
  else if startsW (str "- WARNING:") trimmed then
    { st with warnings := st.warnings ++ [trimChars (replaceFirst (str "- WARNING:") [] trimmed)] }
  else if st.currentSection = str "approved" ∧ startsW (str "- ") trimmed then
    let parts := splitSep (str ": ") (trimmed.drop 2)
    let requirement := parts.headD []
    let foundValue := if parts.length > 1 then some (joinSep (str ": ") parts.tail) else none
    { st with
      checks := st.checks ++
        [{ requirement := requirement, status := .present, found_value := foundValue, comment := [] }] }
  else st

/-- Initial parser state: `currentSection = ""`, empty accumulators. -/
def initSt : ParseSt :=
  { currentSection := [], checks := [], missingItems := [], warnings := [] }

/-- The whole log-parsing loop: split `logs` on `"\n"` and run
`stepLine` over the lines in order. -/
def parseLogs (logs : Str) : ParseSt := (splitLines logs).foldl stepLine initSt

/-- The conversion performed by `analyzeInvoiceUrl` (lines 85-131): a
`{status, logs, summary}` payload is parsed and aggregated into a
`ValidationResult`; any other payload is passed through unchanged. -/
def normalize (data : AnalyzeResponse) (invoiceType : InvoiceType) : ValidationResult :=
  match data with
  | .log p =>
    let st := parseLogs p.logs
    { overall_status := if p.status = str "pass" then .approved else .missing_information
      invoice_type := invoiceType
      checks := st.checks
      missing_items := st.missingItems
      warnings := st.warnings
      layout_suggestions := []
      summary := p.summary.getD []
      extracted_data := none }
  | .structured v => v

/-! ### Basic lemmas about the string primitives -/

lemma startsW_nil_iff (p : Str) : startsW p [] = true ↔ p = [] := by
  cases p <;> simp [startsW]

lemma startsW_iff (p : Str) : ∀ s : Str, startsW p s = true ↔ ∃ t, s = p ++ t := by
  induction p with
  | nil => intro s; simp [startsW]
  | cons x ps ih =>
    intro s
    cases s with
    | nil => simp [startsW]
    | cons c cs =>
      constructor
      · intro h
        rw [startsW] at h
        by_cases hx : x = c
        · subst hx
          rw [if_pos rfl] at h
          obtain ⟨t, ht⟩ := (ih cs).mp h
          exact ⟨t, by simp [ht]⟩
        · rw [if_neg hx] at h; exact absurd h (by simp)
      · rintro ⟨t, ht⟩
        simp only [List.cons_append, List.cons.injEq] at ht
        obtain ⟨hx, hcs⟩ := ht
        rw [startsW, if_pos hx.symm]
        exact (ih cs).mpr ⟨t, hcs⟩

lemma startsW_total (a : Str) : ∀ (b s : Str), startsW a s = true → startsW b s = true →
    startsW a b = true ∨ startsW b a = true := by
  induction a with
  | nil => intro b s _ _; left; rfl
  | cons x as ih =>
    intro b s ha hb
    cases b with
    | nil => right; rfl
    | cons y bs =>
      cases s with
      | nil => rw [startsW] at ha; exact absurd ha (by simp)
      | cons z cs =>
        rw [startsW] at ha hb
        by_cases hxz : x = z
        · by_cases hyz : y = z
          · subst hxz; subst hyz
            rw [if_pos rfl] at ha hb
            rcases ih bs cs ha hb with h | h
            · left; rw [startsW, if_pos rfl]; exact h
            · right; rw [startsW, if_pos rfl]; exact h
          · rw [if_neg hyz] at hb; exact absurd hb (by simp)
        · rw [if_neg hxz] at ha; exact absurd ha (by simp)

/-- Two patterns neither of which leads the other can not both lead `s`. -/
lemma startsW_excl {a b s : Str} (hab : startsW a b = false) (hba : startsW b a = false)
    (ha : startsW a s = true) : startsW b s = false := by
  by_contra h
  have hb : startsW b s = true := by
    cases hbs : startsW b s with
    | false => exact absurd hbs h
    | true => rfl
  rcases startsW_total a b s ha hb with h1 | h1
  · rw [hab] at h1; exact absurd h1 (by simp)
  · rw [hba] at h1; exact absurd h1 (by simp)

lemma mem_dropWhile_of_neg {p : Char → Bool} {a : Char} :
    ∀ l : Str, a ∈ l → p a = false → a ∈ l.dropWhile p := by
  intro l
  induction l with
  | nil => intro h _; exact absurd h (by simp)
  | cons b bs ih =>
    intro hmem hpa
    rw [List.dropWhile_cons]
    by_cases hpb : p b = true
    · rw [if_pos hpb]
      rcases List.mem_cons.mp hmem with rfl | h
      · rw [hpa] at hpb; exact absurd hpb (by simp)
      · exact ih h hpa
    · rw [if_neg hpb]; exact hmem

lemma mem_of_mem_dropWhile {p : Char → Bool} {a : Char} :
    ∀ l : Str, a ∈ l.dropWhile p → a ∈ l := by
  intro l
  induction l with
  | nil => intro h; simp at h
  | cons b bs ih =>
    intro hmem
    rw [List.dropWhile_cons] at hmem
    by_cases hpb : p b = true
    · rw [if_pos hpb] at hmem; exact List.mem_cons_of_mem _ (ih hmem)
    · rw [if_neg hpb] at hmem; exact hmem

/-- Trimming yields the empty string exactly when every character is
whitespace. -/
lemma trimChars_eq_nil_iff (l : Str) : trimChars l = [] ↔ ∀ c ∈ l, isJsWs c = true := by
  unfold trimChars
  rw [List.dropWhile_eq_nil_iff]
  constructor
  · intro h c hc
    by_cases hcw : isJsWs c = true
    · exact hcw
    · have hc1 : c ∈ l.reverse := List.mem_reverse.mpr hc
      have hc2 : c ∈ l.reverse.dropWhile isJsWs :=
        mem_dropWhile_of_neg _ hc1 (by simp at hcw; exact hcw)
      exact h c (List.mem_reverse.mpr hc2)
  · intro h x hx
    exact h x (List.mem_reverse.mp (List.mem_reverse.mp hx |> mem_of_mem_dropWhile _))

/-- A trailing carriage return is stripped by `trim`. -/
lemma trimChars_append_cr (l : Str) : trimChars (l ++ ['\r']) = trimChars l := by
  unfold trimChars
  rw [List.reverse_append]
  have : (['\r'] : Str).reverse ++ l.reverse = '\r' :: l.reverse := by simp
  rw [this, List.dropWhile_cons, if_pos (by decide)]

/-! ### Lemmas about `breakFirst`, `splitSep`, `joinSep` -/

lemma breakFirst_nil {sep : Str} (h : sep ≠ []) : breakFirst sep [] = none := by
  cases sep with
  | nil => exact absurd rfl h
  | cons x xs => simp [breakFirst, startsW]

lemma breakFirst_eq_append {sep : Str} :
    ∀ {s a b : Str}, breakFirst sep s = some (a, b) → s = a ++ sep ++ b := by
  intro s
  induction s with
  | nil =>
    intro a b h
    rw [breakFirst] at h
    by_cases hs : startsW sep [] = true
    · rw [if_pos hs] at h
      obtain rfl := (startsW_nil_iff sep).mp hs
      simp at h
      obtain ⟨rfl, rfl⟩ := h
      rfl
    · rw [if_neg hs] at h; exact absurd h (by simp)
  | cons c cs ih =>
    intro a b h
    rw [breakFirst] at h
    by_cases hs : startsW sep (c :: cs) = true
    · rw [if_pos hs] at h
      simp only [Option.some.injEq, Prod.mk.injEq] at h
      obtain ⟨rfl, rfl⟩ := h
      obtain ⟨t, ht⟩ := (startsW_iff sep (c :: cs)).mp hs
      rw [List.nil_append, ht, List.drop_left]
    · rw [if_neg hs] at h
      cases hb : breakFirst sep cs with
      | none => rw [hb] at h; exact absurd h (by simp)
      | some ab =>
        obtain ⟨a', b'⟩ := ab
        rw [hb] at h
        simp only [Option.some.injEq, Prod.mk.injEq] at h
        obtain ⟨rfl, rfl⟩ := h
        have := ih hb
        simp [this]

lemma breakFirst_length_lt {sep s a b : Str} (hsep : sep ≠ [])
    (h : breakFirst sep s = some (a, b)) : b.length < s.length := by
  have hs := breakFirst_eq_append h
  have : s.length = a.length + (sep.length + b.length) := by simp [hs]
  have hsl : 1 ≤ sep.length := by
    cases sep with
    | nil => exact absurd rfl hsep
    | cons _ _ => simp
  omega

lemma replaceFirst_of_startsW {p s : Str} (h : startsW p s = true) :
    replaceFirst p [] s = s.drop p.length := by
  obtain ⟨t, ht⟩ := (startsW_iff p s).mp h
  cases s with
  | nil =>
    have hp : p = [] := by
      cases p with
      | nil => rfl
      | cons x xs => rw [startsW] at h; exact absurd h (by simp)
    subst hp; rfl
  | cons c cs =>
    rw [replaceFirst, breakFirst, if_pos h]
    simp [ht, List.drop_left]

lemma splitSepAux_ne_nil (sep : Str) (n : Nat) (s : Str) : splitSepAux sep n s ≠ [] := by
  cases n with
  | zero => simp [splitSepAux]
  | succ n =>
    cases hb : breakFirst sep s with
    | none => simp [splitSepAux, hb]
    | some ab => obtain ⟨a, b⟩ := ab; simp [splitSepAux, hb]

lemma splitSepAux_fuel {sep : Str} (hsep : sep ≠ []) :
    ∀ (n m : Nat) (s : Str), s.length ≤ n → s.length ≤ m →
      splitSepAux sep n s = splitSepAux sep m s := by
  intro n
  induction n with
  | zero =>
    intro m s hn hm
    cases s with
    | cons c cs => simp at hn
    | nil =>
      cases m with
      | zero => rfl
      | succ m => simp [splitSepAux, breakFirst_nil hsep]
  | succ n ih =>
    intro m s hn hm
    cases s with
    | nil =>
      cases m with
      | zero => simp [splitSepAux, breakFirst_nil hsep]
      | succ m => simp [splitSepAux, breakFirst_nil hsep]
    | cons c cs =>
      cases m with
      | zero => simp at hm
      | succ m =>
        cases hb : breakFirst sep (c :: cs) with
        | none => simp [splitSepAux, hb]
        | some ab =>
          obtain ⟨a, b⟩ := ab
          have hlt := breakFirst_length_lt hsep hb
          simp only [splitSepAux, hb]
          rw [ih m b (by simp at hlt hn ⊢; omega) (by simp at hlt hm ⊢; omega)]

/-- One-step unfolding of JS `split`: cut at the leftmost occurrence,
then split the remainder. -/
lemma splitSep_cons {sep : Str} (hsep : sep ≠ []) (s : Str) :
    splitSep sep s = match breakFirst sep s with
      | none => [s]
      | some (a, b) => a :: splitSep sep b := by
  unfold splitSep
  cases s with
  | nil => simp [splitSepAux, breakFirst_nil hsep]
  | cons c cs =>
    cases hb : breakFirst sep (c :: cs) with
    | none => simp [splitSepAux, hb]
    | some ab =>
      obtain ⟨a, b⟩ := ab
      have hlt := breakFirst_length_lt hsep hb
      simp only [List.length_cons, splitSepAux, hb]
      rw [splitSepAux_fuel hsep cs.length b.length b (by simp at hlt; omega) le_rfl]

lemma splitSep_ne_nil (sep s : Str) : splitSep sep s ≠ [] :=
  splitSepAux_ne_nil sep s.length s

lemma joinSep_cons₂ (sep x y : Str) (ys : List Str) :
    joinSep sep (x :: y :: ys) = x ++ sep ++ joinSep sep (y :: ys) := rfl

/-- JS `join` is a left inverse of JS `split` with the same separator. -/
lemma joinSep_splitSepAux {sep : Str} (hsep : sep ≠ []) :
    ∀ (n : Nat) (s : Str), s.length ≤ n → joinSep sep (splitSepAux sep n s) = s := by
  intro n
  induction n with
  | zero =>
    intro s hn
    cases s with
    | cons c cs => simp at hn
    | nil => rfl
  | succ n ih =>
    intro s hn
    cases hb : breakFirst sep s with
    | none => simp [splitSepAux, hb, joinSep]
    | some ab =>
      obtain ⟨a, b⟩ := ab
      have hlt := breakFirst_length_lt hsep hb
      simp only [splitSepAux, hb]
      obtain ⟨x, xs, hx⟩ := List.exists_cons_of_ne_nil (splitSepAux_ne_nil sep n b)
      rw [hx, joinSep_cons₂, ← hx, ih b (by omega)]
      exact (breakFirst_eq_append hb).symm

lemma joinSep_splitSep {sep : Str} (hsep : sep ≠ []) (s : Str) :
    joinSep sep (splitSep sep s) = s :=
  joinSep_splitSepAux hsep s.length s le_rfl

/-- The first JS `split` segment is everything up to the first
occurrence of the separator (the whole string when it never occurs). -/
lemma splitSep_headD {sep : Str} (hsep : sep ≠ []) (s : Str) :
    (splitSep sep s).headD [] =
      match breakFirst sep s with
      | none => s
      | some (a, _) => a := by
  cases hb : breakFirst sep s with
  | none => rw [splitSep_cons hsep, hb]; rfl
  | some ab => obtain ⟨a, b⟩ := ab; rw [splitSep_cons hsep, hb]; rfl

/-- When the separator never occurs, JS `split` returns the single
segment `[s]`. -/
lemma splitSep_of_none {sep s : Str} (hsep : sep ≠ [])
    (hb : breakFirst sep s = none) : splitSep sep s = [s] := by
  rw [splitSep_cons hsep, hb]

/-- When the separator occurs, JS `split` has at least two segments and
rejoining all segments after the first restores the text after the
first occurrence. -/
lemma splitSep_of_some {sep s a b : Str} (hsep : sep ≠ [])
    (hb : breakFirst sep s = some (a, b)) :
    (splitSep sep s).length > 1 ∧ (splitSep sep s).headD [] = a ∧
      joinSep sep (splitSep sep s).tail = b := by
  have hcons : splitSep sep s = a :: splitSep sep b := by rw [splitSep_cons hsep, hb]
  refine ⟨?_, ?_, ?_⟩
  · rw [hcons]
    have := splitSep_ne_nil sep b
    have hlen : 0 < (splitSep sep b).length := List.length_pos.mpr this
    simp only [List.length_cons]
    omega
  · rw [hcons]; rfl
  · rw [hcons]
    simp only [List.tail_cons]
    exact joinSep_splitSep hsep b

/-! ### Per-line behaviour of the parser loop -/

/-- A state with section `sec` and empty accumulators. -/
def secSt (sec : Str) : ParseSt :=
  { currentSection := sec, checks := [], missingItems := [], warnings := [] }

/-- Checks emitted by one line, run from a state with section `sec` and
empty accumulators. -/
def lineChecks (sec line : Str) : List CheckResult :=
  (stepLine (secSt sec) line).checks

/-- Missing items emitted by one line. -/
def lineMissing (sec line : Str) : List Str :=
  (stepLine (secSt sec) line).missingItems

/-- Warnings emitted by one line. -/
def lineWarnings (sec line : Str) : List Str :=
  (stepLine (secSt sec) line).warnings

/-- Section after processing one line from section `sec`. -/
def nextSection (sec line : Str) : Str :=
  (stepLine (secSt sec) line).currentSection

/-- Each loop iteration only appends to the accumulators: the new state
is the old one with this line's emissions appended at the end. -/
lemma stepLine_decomp (st : ParseSt) (line : Str) :
    stepLine st line =
      { currentSection := nextSection st.currentSection line,
        checks := st.checks ++ lineChecks st.currentSection line,
        missingItems := st.missingItems ++ lineMissing st.currentSection line,
        warnings := st.warnings ++ lineWarnings st.currentSection line } := by
  unfold nextSection lineChecks lineMissing lineWarnings secSt stepLine
  dsimp only
  split_ifs <;> simp

/-- Function `stepLine` looks at a line only through its trimmed form. -/
lemma stepLine_congr (st : ParseSt) {l l' : Str} (h : trimChars l = trimChars l') :
    stepLine st l = stepLine st l' := by
  unfold stepLine
  rw [h]

/-- Branch for `"- MISSING:"` lines of the loop (any section). -/
lemma stepLine_missing (st : ParseSt) (line : Str)
    (h : startsW (str "- MISSING:") (trimChars line) = true) :
    stepLine st line =
      { st with
        checks := st.checks ++
          [{ requirement := trimChars (replaceFirst (str "- MISSING:") [] (trimChars line)),
             status := .missing, found_value := none, comment := [] }],
        missingItems := st.missingItems ++
          [trimChars (replaceFirst (str "- MISSING:") [] (trimChars line))] } := by
  have g1 : startsW (str "Errors (") (trimChars line) = false :=
    startsW_excl (by decide) (by decide) h
  have g2 : startsW (str "Approved (") (trimChars line) = false :=
    startsW_excl (by decide) (by decide) h
  simp [stepLine, g1, g2, h]

/-- Branch for `"- ERROR:"` lines of the loop (any section). -/
lemma stepLine_error (st : ParseSt) (line : Str)
    (h : startsW (str "- ERROR:") (trimChars line) = true) :
    stepLine st line =
      { st with
        checks := st.checks ++
          [{ requirement :=
               (splitSep (str " (found:")
                 (trimChars (replaceFirst (str "- ERROR:") [] (trimChars line)))).headD [],
             status := .unclear, found_value := none, comment := [] }] } := by
  have g1 : startsW (str "Errors (") (trimChars line) = false :=
    startsW_excl (by decide) (by decide) h
  have g2 : startsW (str "Approved (") (trimChars line) = false :=
    startsW_excl (by decide) (by decide) h
  have g3 : startsW (str "- MISSING:") (trimChars line) = false :=
    startsW_excl (by decide) (by decide) h
  simp [stepLine, g1, g2, g3, h]

/-- Branch for `"- WARNING:"` lines of the loop (any section). -/
lemma stepLine_warning (st : ParseSt) (line : Str)
    (h : startsW (str "- WARNING:") (trimChars line) = true) :
    stepLine st line =
      { st with
        warnings := st.warnings ++
          [trimChars (replaceFirst (str "- WARNING:") [] (trimChars line))] } := by
  have g1 : startsW (str "Errors (") (trimChars line) = false :=
    startsW_excl (by decide) (by decide) h
  have g2 : startsW (str "Approved (") (trimChars line) = false :=
    startsW_excl (by decide) (by decide) h
  have g3 : startsW (str "- MISSING:") (trimChars line) = false :=
    startsW_excl (by decide) (by decide) h
  have g4 : startsW (str "- ERROR:") (trimChars line) = false :=
    startsW_excl (by decide) (by decide) h
  simp [stepLine, g1, g2, g3, g4, h]

/-- Branch for `"- "` lines of the loop inside the approved section. -/
lemma stepLine_approvedItem (st : ParseSt) (line : Str)
    (hsec : st.currentSection = str "approved")
    (h : startsW (str "- ") (trimChars line) = true)
    (hm : startsW (str "- MISSING:") (trimChars line) = false)
    (he : startsW (str "- ERROR:") (trimChars line) = false)
    (hw : startsW (str "- WARNING:") (trimChars line) = false) :
    stepLine st line =
      { st with
        checks := st.checks ++
          [{ requirement := (splitSep (str ": ") ((trimChars line).drop 2)).headD [],
             status := .present,
             found_value :=
               if (splitSep (str ": ") ((trimChars line).drop 2)).length > 1 then
                 some (joinSep (str ": ") (splitSep (str ": ") ((trimChars line).drop 2)).tail)
               else none,
             comment := [] }] } := by
  have g1 : startsW (str "Errors (") (trimChars line) = false :=
    startsW_excl (by decide) (by decide) h
  have g2 : startsW (str "Approved (") (trimChars line) = false :=
    startsW_excl (by decide) (by decide) h
  simp [stepLine, g1, g2, hm, he, hw, hsec, h]

/-- Checks emitted by a run of lines, threading the section state. -/
def emitChecks (sec : Str) : List Str → List CheckResult
  | [] => []
  | l :: ls => lineChecks sec l ++ emitChecks (nextSection sec l) ls

/-- Missing items emitted by a run of lines. -/
def emitMissing (sec : Str) : List Str → List Str
  | [] => []
  | l :: ls => lineMissing sec l ++ emitMissing (nextSection sec l) ls

/-- Warnings emitted by a run of lines. -/
def emitWarnings (sec : Str) : List Str → List Str
  | [] => []
  | l :: ls => lineWarnings sec l ++ emitWarnings (nextSection sec l) ls

/-- The loop over a list of lines appends, in input order, the per-line
emissions of each accumulator. -/
lemma foldl_stepLine_emit :
    ∀ (ls : List Str) (st : ParseSt),
      (ls.foldl stepLine st).checks = st.checks ++ emitChecks st.currentSection ls ∧
      (ls.foldl stepLine st).missingItems =
        st.missingItems ++ emitMissing st.currentSection ls ∧
      (ls.foldl stepLine st).warnings = st.warnings ++ emitWarnings st.currentSection ls := by
  intro ls
  induction ls with
  | nil => intro st; simp [emitChecks, emitMissing, emitWarnings]
  | cons l ls ih =>
    intro st
    rw [List.foldl_cons, stepLine_decomp st l]
    have h := ih
      { currentSection := nextSection st.currentSection l,
        checks := st.checks ++ lineChecks st.currentSection l,
        missingItems := st.missingItems ++ lineMissing st.currentSection l,
        warnings := st.warnings ++ lineWarnings st.currentSection l }
    refine ⟨?_, ?_, ?_⟩
    · simp only [emitChecks, ← List.append_assoc]
      exact h.1
    · simp only [emitMissing, ← List.append_assoc]
      exact h.2.1
    · simp only [emitWarnings, ← List.append_assoc]
      exact h.2.2

/-! ### Claim theorems -/

/-- A structured payload whose own `invoice_type` differs from the
caller-supplied argument used below. -/
def samplePayload : ValidationResult :=
  { overall_status := .approved, invoice_type := .paypal, checks := [],
    missing_items := [], warnings := [], layout_suggestions := [],
    summary := [], extracted_data := none }

/-- C1, counterexample: on the structured path the code passes the
payload through unchanged, so with a payload whose `invoice_type` is
`paypal` and caller argument `bank_transfer`, the result's
`invoice_type` is not the caller-supplied value. -/
theorem c1_counterexample :
    (normalize (.structured samplePayload) InvoiceType.bank_transfer).invoice_type ≠
      InvoiceType.bank_transfer := by decide

/-- C1 (amended): for every input already matching the
`ValidationResult` shape, `normalize` returns it exactly unchanged;
in particular `invoice_type` keeps the payload's own value and is NOT
overwritten by the caller-supplied argument. -/
theorem c1_amended_structured_passthrough (v : ValidationResult) (it : InvoiceType) :
    normalize (.structured v) it = v ∧
      (normalize (.structured v) it).invoice_type = v.invoice_type :=
  ⟨rfl, rfl⟩

/-- C2: `normalize` is the identity on the structured path, hence
re-running it on its own output (treated as already-structured input)
returns that output unchanged. -/
theorem c2_structured_identity_idempotent :
    (∀ (v : ValidationResult) (it : InvoiceType), normalize (.structured v) it = v) ∧
      (∀ (x : AnalyzeResponse) (it it' : InvoiceType),
        normalize (.structured (normalize x it)) it' = normalize x it) :=
  ⟨fun _ _ => rfl, fun _ _ _ => rfl⟩

/-- The concrete log payload of the spec's worked example. -/
def c3payload : LogPayload :=
  { status := str "fail"
    logs := str "Errors (1)\n- MISSING: Tax number\n- WARNING: Low confidence\nApproved (1)\n- Invoice date: 2024-01-15"
    summary := none }

/-- C3: on the concrete log text of the spec, the parser produces
exactly the two checks, one missing item and one warning stated there. -/
theorem c3_concrete_log_example :
    (normalize (.log c3payload) .paypal).checks =
      [{ requirement := str "Tax number", status := .missing, found_value := none,
         comment := [] },
       { requirement := str "Invoice date", status := .present,
         found_value := some (str "2024-01-15"), comment := [] }] ∧
    (normalize (.log c3payload) .paypal).missing_items = [str "Tax number"] ∧
    (normalize (.log c3payload) .paypal).warnings = [str "Low confidence"] := by decide

/-- C4: on the log path, `overall_status` is `approved` iff the
payload's status is `"pass"`, is `missing_information` for every other
status string, and is never `invalid`. -/
theorem c4_overall_status (p : LogPayload) (it : InvoiceType) :
    ((normalize (.log p) it).overall_status = .approved ↔ p.status = str "pass") ∧
      ((normalize (.log p) it).overall_status = .missing_information ↔
        p.status ≠ str "pass") ∧
      (normalize (.log p) it).overall_status ≠ .invalid := by
  by_cases h : p.status = str "pass" <;> simp [normalize, h]

/-- C4, witness: the two dispositions at concrete statuses `"pass"` and
`"fail"`. -/
theorem c4_witness :
    ((normalize (.log { status := str "pass", logs := [], summary := none })
        InvoiceType.paypal).overall_status = .approved ↔
      (str "pass" : Str) = str "pass") ∧
    ((normalize (.log { status := str "fail", logs := [], summary := none })
        InvoiceType.paypal).overall_status = .missing_information ↔
      (str "fail" : Str) ≠ str "pass") := by
  have h1 := c4_overall_status { status := str "pass", logs := [], summary := none }
    InvoiceType.paypal
  have h2 := c4_overall_status { status := str "fail", logs := [], summary := none }
    InvoiceType.paypal
  exact ⟨h1.1, h2.2.1⟩

/-- C5, counterexample: the log consisting of the single line
`"- MISSING:"` (nothing after the marker) produces a check whose
`requirement` is the EMPTY string, so not every emitted check has a
non-empty requirement. -/
theorem c5_counterexample :
    (normalize (.log { status := str "x", logs := str "- MISSING:", summary := none })
        .paypal).checks =
      [{ requirement := [], status := .missing, found_value := none, comment := [] }] := by
  decide

/-- C5 (amended): a `"- MISSING:"` line emits one check whose
`requirement` is the trimmed remainder after the 10-character marker;
that requirement is empty exactly when nothing but whitespace follows
the marker (in particular for a line that is only the marker), so
non-emptiness is NOT guaranteed. -/
theorem c5_amended_requirement_emptiness (st : ParseSt) (line : Str)
    (h : startsW (str "- MISSING:") (trimChars line) = true) :
    (stepLine st line).checks = st.checks ++
      [{ requirement := trimChars ((trimChars line).drop 10), status := .missing,
         found_value := none, comment := [] }] ∧
    (trimChars ((trimChars line).drop 10) = [] ↔
      ∀ c ∈ (trimChars line).drop 10, isJsWs c = true) := by
  have hlen : (str "- MISSING:").length = 10 := by decide
  have hrep : replaceFirst (str "- MISSING:") [] (trimChars line) =
      (trimChars line).drop 10 := by
    rw [replaceFirst_of_startsW h, hlen]
  constructor
  · rw [stepLine_missing st line h]
    simp [hrep]
  · exact trimChars_eq_nil_iff _

/-- C5, witness: on the well-formed line `"- MISSING: Tax number"` the
amended statement instantiates and the requirement is `"Tax number"`. -/
theorem c5_witness :
    ((stepLine initSt (str "- MISSING: Tax number")).checks =
      initSt.checks ++
        [{ requirement := trimChars ((trimChars (str "- MISSING: Tax number")).drop 10),
           status := .missing, found_value := none, comment := [] }]) ∧
    trimChars ((trimChars (str "- MISSING: Tax number")).drop 10) = str "Tax number" := by
  have h := c5_amended_requirement_emptiness initSt (str "- MISSING: Tax number")
    (by decide)
  exact ⟨h.1, by decide⟩

/-- C7: in the approved section, a `"- "` line not matching the other
markers is split at the first `": "`:
the requirement is the segment before it (the whole remainder when no
`": "` occurs) and `found_value` is everything after it (so embedded
`": "` occurrences are preserved), `none` when no `": "` occurs;
the emitted check has status `present`. -/
theorem c7_approved_line_split (st : ParseSt) (line : Str)
    (hsec : st.currentSection = str "approved")
    (h : startsW (str "- ") (trimChars line) = true)
    (hm : startsW (str "- MISSING:") (trimChars line) = false)
    (he : startsW (str "- ERROR:") (trimChars line) = false)
    (hw : startsW (str "- WARNING:") (trimChars line) = false) :
    (stepLine st line).checks = st.checks ++
      [{ requirement :=
           match breakFirst (str ": ") ((trimChars line).drop 2) with
           | none => (trimChars line).drop 2
           | some (a, _) => a,
         status := .present,
         found_value := (breakFirst (str ": ") ((trimChars line).drop 2)).map Prod.snd,
         comment := [] }] := by
  rw [stepLine_approvedItem st line hsec h hm he hw]
  cases hb : breakFirst (str ": ") ((trimChars line).drop 2) with
  | none =>
    have hs := splitSep_of_none (show (str ": ") ≠ [] by decide) hb
    simp [hs, hb]
  | some ab =>
    obtain ⟨a, b⟩ := ab
    obtain ⟨hlen, hhead, hjoin⟩ := splitSep_of_some (show (str ": ") ≠ [] by decide) hb
    simp at hhead
    simp [hb, hlen, hhead, hjoin]

/-- C7, witness: the spec's no-colon example `"- Signed"` in the
approved section yields requirement `"Signed"` and `found_value` none. -/
theorem c7_witness :
    (stepLine (secSt (str "approved")) (str "- Signed")).checks =
      [{ requirement := str "Signed", status := .present, found_value := none,
         comment := [] }] := by
  have h := c7_approved_line_split (secSt (str "approved")) (str "- Signed") rfl
    (by decide) (by decide) (by decide) (by decide)
  rw [h]
  decide

/-- C8: a `"- ERROR:"` line emits one check with status `unclear`, no
`found_value`, empty comment, and requirement equal to the part of the
trimmed remainder before the first `" (found:"` marker (the full
remainder when the marker is absent). -/
theorem c8_error_requirement (st : ParseSt) (line : Str)
    (h : startsW (str "- ERROR:") (trimChars line) = true) :
    (stepLine st line).checks = st.checks ++
      [{ requirement :=
           match breakFirst (str " (found:") (trimChars ((trimChars line).drop 8)) with
           | none => trimChars ((trimChars line).drop 8)
           | some (a, _) => a,
         status := .unclear, found_value := none, comment := [] }] := by
  have hlen : (str "- ERROR:").length = 8 := by decide
  have hrep : replaceFirst (str "- ERROR:") [] (trimChars line) =
      (trimChars line).drop 8 := by
    rw [replaceFirst_of_startsW h, hlen]
  rw [stepLine_error st line h]
  simp only [hrep]
  rw [splitSep_headD (show (str " (found:") ≠ [] by decide)]

/-- C8, witness: the spec's example line
`"- ERROR: Sender email (found: not an email)"` yields requirement
`"Sender email"` with status `unclear`. -/
theorem c8_witness :
    (stepLine initSt (str "- ERROR: Sender email (found: not an email)")).checks =
      [{ requirement := str "Sender email", status := .unclear, found_value := none,
         comment := [] }] := by
  have h := c8_error_requirement initSt
    (str "- ERROR: Sender email (found: not an email)") (by decide)
  rw [h]
  decide

/-- C6: (1) the loop output is, for each accumulator, the input-order
concatenation of the per-line emissions — so `checks`, `missing_items`
and `warnings` preserve the order of matching lines and undergo no
sorting or deduplication; (2) a `"- MISSING:"`, `"- ERROR:"` or
`"- WARNING:"` line has the same effect in every section (and leaves
the section unchanged). -/
theorem c6_order_and_section_independence :
    (∀ (st : ParseSt) (ls : List Str),
      (ls.foldl stepLine st).checks = st.checks ++ emitChecks st.currentSection ls ∧
      (ls.foldl stepLine st).missingItems =
        st.missingItems ++ emitMissing st.currentSection ls ∧
      (ls.foldl stepLine st).warnings =
        st.warnings ++ emitWarnings st.currentSection ls) ∧
    (∀ (sec sec' l : Str),
      (startsW (str "- MISSING:") (trimChars l) = true ∨
        startsW (str "- ERROR:") (trimChars l) = true ∨
        startsW (str "- WARNING:") (trimChars l) = true) →
      lineChecks sec l = lineChecks sec' l ∧
      lineMissing sec l = lineMissing sec' l ∧
      lineWarnings sec l = lineWarnings sec' l ∧
      nextSection sec l = sec) := by
  constructor
  · intro st ls
    exact foldl_stepLine_emit ls st
  · intro sec sec' l hl
    unfold lineChecks lineMissing lineWarnings nextSection
    rcases hl with h | h | h
    · rw [stepLine_missing (secSt sec) l h, stepLine_missing (secSt sec') l h]
      simp [secSt]
    · rw [stepLine_error (secSt sec) l h, stepLine_error (secSt sec') l h]
      simp [secSt]
    · rw [stepLine_warning (secSt sec) l h, stepLine_warning (secSt sec') l h]
      simp [secSt]

/-- C6, witness: a `"- MISSING:"` line has the same effect before any
header as inside the approved section. -/
theorem c6_witness :
    lineChecks (str "") (str "- MISSING: A") =
      lineChecks (str "approved") (str "- MISSING: A") ∧
    lineMissing (str "") (str "- MISSING: A") =
      lineMissing (str "approved") (str "- MISSING: A") ∧
    lineWarnings (str "") (str "- MISSING: A") =
      lineWarnings (str "approved") (str "- MISSING: A") ∧
    nextSection (str "") (str "- MISSING: A") = str "" :=
  c6_order_and_section_independence.2 (str "") (str "approved") (str "- MISSING: A")
    (Or.inl (by decide))

/-- The status test used for `missing_items`. -/
def isMissingStatus (c : CheckResult) : Bool :=
  match c.status with
  | .missing => true
  | _ => false

/-- Per line, the missing items are exactly the requirements of the
emitted checks whose status is `missing`. -/
lemma lineMissing_eq_filter (sec line : Str) :
    lineMissing sec line =
      ((lineChecks sec line).filter isMissingStatus).map (fun c => c.requirement) := by
  unfold lineMissing lineChecks secSt stepLine
  dsimp only
  split_ifs <;> simp [isMissingStatus, List.filter]

/-- The `missing_items`/`checks` relation is invariant under the loop. -/
lemma foldl_missing_invariant :
    ∀ (ls : List Str) (st : ParseSt),
      st.missingItems = (st.checks.filter isMissingStatus).map (fun c => c.requirement) →
      (ls.foldl stepLine st).missingItems =
        ((ls.foldl stepLine st).checks.filter isMissingStatus).map
          (fun c => c.requirement) := by
  intro ls
  induction ls with
  | nil => intro st h; exact h
  | cons l ls ih =>
    intro st h
    rw [List.foldl_cons, stepLine_decomp st l]
    apply ih
    simp [List.filter_append, h, lineMissing_eq_filter]

/-- C9: on the log path, `missing_items` is exactly the sequence of
requirements of the checks whose status is `missing`, in encounter
order, duplicates retained (it is the filtered-and-projected `checks`
list, which keeps order and multiplicity). -/
theorem c9_missing_items_projection (p : LogPayload) (it : InvoiceType) :
    ((normalize (.log p) it).missing_items =
      (((normalize (.log p) it).checks.filter isMissingStatus).map
        (fun c => c.requirement))) ∧
    ∀ c : CheckResult, isMissingStatus c = true ↔ c.status = .missing := by
  constructor
  · have h1 : (normalize (.log p) it).missing_items = (parseLogs p.logs).missingItems := rfl
    have h2 : (normalize (.log p) it).checks = (parseLogs p.logs).checks := rfl
    rw [h1, h2]
    exact foldl_missing_invariant (splitLines p.logs) initSt rfl
  · intro c
    obtain ⟨req, stat, fv, com⟩ := c
    cases stat <;> simp [isMissingStatus]

/-- Replace every line feed by a carriage return plus line feed. -/
def crlfify : Str → Str
  | [] => []
  | c :: cs => if c = '\n' then '\r' :: '\n' :: crlfify cs else c :: crlfify cs

/-- Append a carriage return to every line but the last. -/
def addCRs : List Str → List Str
  | [] => []
  | [l] => [l]
  | l :: ls => (l ++ ['\r']) :: addCRs ls

lemma addCRs_cons₂ (x y : Str) (ys : List Str) :
    addCRs (x :: y :: ys) = (x ++ ['\r']) :: addCRs (y :: ys) := rfl

lemma splitLines_ne_nil : ∀ s : Str, splitLines s ≠ [] := by
  intro s
  cases s with
  | nil => simp [splitLines]
  | cons c cs =>
    simp only [splitLines]
    split_ifs with h
    · simp
    · cases hs : splitLines cs <;> simp

lemma splitLines_cons_nl (cs : Str) : splitLines ('\n' :: cs) = [] :: splitLines cs := by
  simp [splitLines]

lemma splitLines_cons_other {c : Char} (h : ¬c = '\n') (cs : Str) :
    splitLines (c :: cs) =
      match splitLines cs with
      | [] => [[c]]
      | l :: ls => (c :: l) :: ls := by
  simp [splitLines, h]

/-- Splitting the CRLF-ified text gives the same lines, each line but
the last carrying a trailing carriage return. -/
lemma splitLines_crlfify : ∀ s : Str, splitLines (crlfify s) = addCRs (splitLines s) := by
  intro s
  induction s with
  | nil => rfl
  | cons c cs ih =>
    obtain ⟨l, ls, hls⟩ := List.exists_cons_of_ne_nil (splitLines_ne_nil cs)
    by_cases h : c = '\n'
    · subst h
      rw [show crlfify ('\n' :: cs) = '\r' :: '\n' :: crlfify cs from by simp [crlfify]]
      rw [splitLines_cons_other (by decide) _, splitLines_cons_nl, ih,
        splitLines_cons_nl, hls, addCRs_cons₂]
      simp
    · rw [show crlfify (c :: cs) = c :: crlfify cs from by simp [crlfify, h]]
      rw [splitLines_cons_other h _, ih, splitLines_cons_other h _, hls]
      cases ls with
      | nil => simp [addCRs]
      | cons l2 ls2 => simp [addCRs_cons₂]

/-- Trailing carriage returns on every line but the last do not change
the fold. -/
lemma foldl_addCRs : ∀ (ls : List Str) (st : ParseSt),
    (addCRs ls).foldl stepLine st = ls.foldl stepLine st := by
  intro ls
  induction ls with
  | nil => intro st; rfl
  | cons l ls ih =>
    intro st
    cases ls with
    | nil => rfl
    | cons l2 ls2 =>
      show ((l ++ ['\r']) :: addCRs (l2 :: ls2)).foldl stepLine st = _
      rw [List.foldl_cons, List.foldl_cons,
        stepLine_congr st (trimChars_append_cr l)]
      exact ih _

/-- C10: parsing the log text with every `"\n"` replaced by `"\r\n"`
yields the same `ValidationResult` as parsing the original, because
every line is trimmed (which removes the trailing `"\r"`) before any
pattern is matched. -/
theorem c10_crlf_insensitive (p : LogPayload) (it : InvoiceType) :
    normalize (.log { status := p.status, logs := crlfify p.logs, summary := p.summary })
        it =
      normalize (.log p) it := by
  have hp : parseLogs (crlfify p.logs) = parseLogs p.logs := by
    unfold parseLogs
    rw [splitLines_crlfify, foldl_addCRs]
  simp [normalize, hp]

end InvoiceChecker
